import Mathlib

/-!
Verification of the agent-converto RAG pipeline against its specification.

Shallow embedding of the Python sources:
  * `query_pipeline.py`   — `format_context` (Context Assembler)
  * `embed_pipeline.py`   — `chunk_transcript` wrapper, `process_in_batches`,
                            `embed_and_store` (Ingestion Pipeline)
  * `notion/extract.py`   — `extract_all_transcripts`, `mark_page_indexed`
  * `discord_bot.py`      — `is_rate_limited`, `split_message`,
                            `summary_command` thread setup, `on_message`
                            thread-mode turn logic

Python strings are modelled as Lean `String` (or `List Char` where kernel
evaluation matters), machine floats returned by the embedding backend are
modelled as opaque `List Int` vectors (their numeric content is never
inspected by the code under verification), and fallible calls are modelled
with `Except`.
-/

namespace Converto

/-! ## String helpers (Python `in`, `str.startswith`, data-level append) -/

/-- Bool test that the first list is a prefix of the second
(char-by-char, mirroring Python substring matching at offset 0). -/
def startsWithCh : List Char → List Char → Bool
  | [], _ => true
  | _ :: _, [] => false
  | a :: as, b :: bs => a == b && startsWithCh as bs

/-- Python `needle in hay` on character lists: `needle` occurs as a
contiguous substring of `hay` (the empty needle always occurs). -/
def containsCh (needle : List Char) : List Char → Bool
  | [] => needle.isEmpty
  | c :: cs => startsWithCh needle (c :: cs) || containsCh needle cs

/-- Python `p` is a prefix of `s` for `String`s. -/
def strStartsWith (p s : String) : Bool := startsWithCh p.data s.data

/-- Python `needle in hay` for `String`s. -/
def strContains (hay needle : String) : Bool := containsCh needle.data hay.data

/-! ## Context Assembler — `query_pipeline.format_context` -/

/-- One element of the list produced by `search_database`: a Python dict
with keys `id`, `document` and `metadata` (`title` / `course` inside the
metadata dict).  `Option` models a possibly missing key, matching the
`.get(key, default)` accesses in `format_context`. -/
structure SearchResult where
  id : String := ""
  document : Option String := none
  title : Option String := none
  course : Option String := none
deriving DecidableEq

/-- The literal sentinel returned by `format_context` for empty results. -/
def noInfoSentinel : String := "No relevant information found in the knowledge base."

/-- The fixed instruction preamble of a non-sentinel `format_context` output. -/
def contextPreamble : String := "Using the following document excerpts as context:\n---\n"

/-- The guard `len(search_results) == 1 and "No relevant information" in
search_results[0].get('document', '')` from `format_context`. -/
def singletonNoInfo : List SearchResult → Bool
  | [r] => strContains (r.document.getD "") "No relevant information"
  | _ => false

/-- Rendering of one search result inside the loop of `format_context`:
`f"Source {i+1} (Course: {course}, Title: {title}):\n{document}\n---\n"`. -/
def renderResult (i : Nat) (r : SearchResult) : String :=
  "Source " ++ toString (i + 1) ++ " (Course: " ++ r.course.getD "Unknown Course"
    ++ ", Title: " ++ r.title.getD "Unknown Title" ++ "):\n"
    ++ r.document.getD "No content available" ++ "\n---\n"

/-- `query_pipeline.format_context` (lines 102-118). -/
def format_context (search_results : List SearchResult) : String :=
  if search_results.isEmpty || singletonNoInfo search_results then
    noInfoSentinel
  else
    contextPreamble ++ String.join (search_results.enum.map fun p => renderResult p.1 p.2)

/-! ## Rate limiter — `discord_bot.is_rate_limited` -/

/-- `RATE_LIMIT_WINDOW` default (`os.getenv("RATE_LIMIT_WINDOW", "60")`), seconds. -/
def RATE_LIMIT_WINDOW : Nat := 60

/-- `RATE_LIMIT_MAX` default (`os.getenv("RATE_LIMIT_MAX", "5")`). -/
def RATE_LIMIT_MAX : Nat := 5

/-- The pruning list comprehension in `is_rate_limited`: keep the stored
request times still inside the window at time `now`.  Timestamps are
seconds as `Nat`; `now - t < window` matches the `now - req_time <
timedelta(seconds=...)` comparison for the monotone clocks the bot uses. -/
def pruneW (now : Nat) (reqs : List Nat) : List Nat :=
  reqs.filter fun t => now - t < RATE_LIMIT_WINDOW

/-- `discord_bot.is_rate_limited` (lines 70-80) for one caller: takes the
caller's stored timestamp list, returns the decision (`true` = rejected)
together with the caller's new stored list (the code first overwrites the
ledger with the pruned list, then appends `now` only when admitting). -/
def is_rate_limited (now : Nat) (reqs : List Nat) : Bool × List Nat :=
  let pruned := pruneW now reqs
  if RATE_LIMIT_MAX ≤ pruned.length then (true, pruned)
  else (false, pruned ++ [now])

/-- A sequence of calls to `is_rate_limited` for one caller, starting from
the given ledger, returning the per-call decisions. -/
def run_calls (reqs : List Nat) : List Nat → List Bool
  | [] => []
  | t :: ts => (is_rate_limited t reqs).1 :: run_calls (is_rate_limited t reqs).2 ts

/-! ## Embedding Client — `embed_pipeline.process_in_batches` -/

/-- `BATCH_SIZE = 5` from `embed_pipeline.py`. -/
def BATCH_SIZE : Nat := 5

/-- `embed_pipeline.process_in_batches` (lines 81-96).  The retrying
backend call `embed_texts` is the external collaborator, passed as the
fallible function `embed`; an exception anywhere (modelled by
`Except.error`) propagates out, discarding the local accumulator, exactly
as the Python `raise` does. -/
def process_in_batches (embed : List String → Except String (List (List Int))) :
    List String → Except String (List (List Int))
  | [] => Except.ok []
  | t :: ts =>
    match embed ((t :: ts).take BATCH_SIZE) with
    | Except.error e => Except.error e
    | Except.ok vs =>
      match process_in_batches embed ((t :: ts).drop BATCH_SIZE) with
      | Except.error e => Except.error e
      | Except.ok rest => Except.ok (vs ++ rest)
  termination_by ts => ts.length
  decreasing_by simp [BATCH_SIZE, List.length_drop]; omega

/-- A pointwise embedding backend used to instantiate the
`process_in_batches` theorem: embeds each text independently with `f`. -/
def pointwiseBackend (f : String → List Int) :
    List String → Except String (List (List Int)) :=
  fun ts => Except.ok (ts.map f)

/-! ## Source pages — `notion/extract.py` -/

/-- A page of the Notion database as `extract_all_transcripts` reads it:
`indexed` is `page["properties"].get("Indexed", {}).get("checkbox", False)`,
the remaining fields are the title / course / id / assembled block text. -/
structure NotionPage where
  page_id : String
  title : String
  course : String
  content : String
  indexed : Bool
deriving DecidableEq

/-- The transcript dict appended for each non-indexed page. -/
structure Transcript where
  page_id : String
  title : String
  course : String
  content : String
deriving DecidableEq

/-- The dict built in the body of the `extract_all_transcripts` loop. -/
def pageTranscript (p : NotionPage) : Transcript :=
  ⟨p.page_id, p.title, p.course, p.content⟩

/-- `notion/extract.extract_all_transcripts` (lines 37-59): walk the pages,
`continue` past any page whose `Indexed` checkbox is set, collect a
transcript dict for the rest. -/
def extract_all_transcripts : List NotionPage → List Transcript
  | [] => []
  | p :: ps =>
    if p.indexed then extract_all_transcripts ps
    else pageTranscript p :: extract_all_transcripts ps

/-! ## Vector Index records and upsert -/

/-- One record stored in the ChromaDB collection by `embed_and_store`:
id `f"{page_id}_{i}"`, embedding vector, metadata dict and document text. -/
structure ChunkRecord where
  id : String
  embedding : List Int
  page_id : String
  title : String
  course : String
  chunk_index : Nat
  document : String
deriving DecidableEq

/-- The record batch built by the
`for i, (chunk, vec) in enumerate(zip(chunks, vectors))` loop of
`embed_and_store` (lines 114-128). -/
def mkRecords (p : Transcript) (chunks : List String) (vectors : List (List Int)) :
    List ChunkRecord :=
  (chunks.zip vectors).enum.map fun x =>
    { id := p.page_id ++ "_" ++ toString x.1
      embedding := x.2.2
      page_id := p.page_id
      title := p.title
      course := p.course
      chunk_index := x.1
      document := x.2.1 }

/-- The collection contents, as a map from record id to record. -/
def Store : Type := String → Option ChunkRecord

/-- Upsert of a single record: replaces any record sharing its id. -/
def upsert1 (s : Store) (r : ChunkRecord) : Store :=
  fun k => if k = r.id then some r else s k

/-- `collection.upsert` over a record batch (insert-or-replace per id). -/
def upsertAll (s : Store) (rs : List ChunkRecord) : Store :=
  rs.foldl upsert1 s

/-- The last record of the batch carrying id `k`, if any (the record whose
value an upsert of the batch leaves at key `k`). -/
def lastMatch (k : String) : List ChunkRecord → Option ChunkRecord
  | [] => none
  | r :: rs =>
    match lastMatch k rs with
    | some r' => some r'
    | none => if k = r.id then some r else none

/-- The full record batch `embed_and_store` computes for one page on its
success path, with the chunker and the per-text embedding backend passed
in as the (deterministic) external collaborators: `chunks =
chunk_transcript(content)`, `vectors = process_in_batches(chunks)`. -/
def page_records (chunkf : String → List String) (embedf : String → List Int)
    (p : Transcript) : List ChunkRecord :=
  mkRecords p (chunkf p.content) ((chunkf p.content).map embedf)

/-! ## Ingestion Pipeline — `embed_pipeline.embed_and_store` -/

/-- The external fallible operations `embed_and_store` calls per page:
the chunker (`chunk_transcript`, which re-raises tokenizer failures), the
batched embedding client, the collection upsert (atomic per call, per the
store's contract) and the Notion write-back `mark_page_indexed`. -/
structure IngestOps where
  chunkE : String → Except String (List String)
  embedE : List String → Except String (List (List Int))
  upsertE : Store → List ChunkRecord → Except String Store
  markE : String → Except String Unit

/-- Ingestion state threaded through the page loop: the collection
contents plus the ids of pages successfully marked indexed at the source. -/
def IngestState : Type := Store × List String

/-- The body of the `for page in transcripts` loop of `embed_and_store`
(lines 106-150).  The outer `try`/`except ... continue` catches a
chunking, embedding or upsert failure and leaves the state untouched; the
inner `try` around `mark_page_indexed` catches a write-back failure after
the upsert has already happened, keeping the upserted records and moving
on without recording the page as marked. -/
def processPage (ops : IngestOps) (st : IngestState) (p : Transcript) : IngestState :=
  match ops.chunkE p.content with
  | Except.error _ => st
  | Except.ok chunks =>
    match ops.embedE chunks with
    | Except.error _ => st
    | Except.ok vectors =>
      match ops.upsertE st.1 (mkRecords p chunks vectors) with
      | Except.error _ => st
      | Except.ok s' =>
        match ops.markE p.page_id with
        | Except.error _ => (s', st.2)
        | Except.ok _ => (s', st.2 ++ [p.page_id])

/-- `embed_pipeline.embed_and_store`: the page loop, folded left to right. -/
def embed_and_store (ops : IngestOps) (st : IngestState) (ts : List Transcript) :
    IngestState :=
  ts.foldl (processPage ops) st

/-- An `IngestOps` whose chunker always fails, used to exercise the
failure-isolation theorem at a concrete input. -/
def opsChunkFail : IngestOps where
  chunkE := fun _ => Except.error "boom"
  embedE := fun _ => Except.ok []
  upsertE := fun s _ => Except.ok s
  markE := fun _ => Except.ok ()

/-! ## Lesson-summary thread creation — `discord_bot.summary_command` -/

/-- The `collection.get(where={"$and": [{"title": lesson}, {"course":
course}]})` call of `summary_command`: exact-match metadata retrieval of
every record of the pinned lesson. -/
def lesson_get (coll : List ChunkRecord) (course lesson : String) : List ChunkRecord :=
  coll.filter fun r => r.title == lesson && r.course == course

/-- The lesson content `summary_command` stores for the new thread
(lines 301-335): `None` when the `get` returned no documents (the command
replies "No content found" and returns), otherwise `results['documents'][0]`
— the first matching document only. -/
def summary_lesson_content (coll : List ChunkRecord) (course lesson : String) :
    Option String :=
  match (lesson_get coll course lesson).map (fun r => r.document) with
  | [] => none
  | d :: _ => some d

/-- Modelled from the spec: `full_content` is "the complete text of the
pinned lesson", i.e. the text of every stored chunk whose metadata matches
the (title, course) pair.  The spec does not fix the order or the joining
of the chunk texts, so the complete text is modelled as the list of all
matching chunk texts. -/
def full_content_spec (coll : List ChunkRecord) (course lesson : String) :
    List String :=
  (lesson_get coll course lesson).map fun r => r.document

/-! ## Thread Conversation State — `discord_bot` thread maps and `on_message` -/

/-- The per-thread entries of the three module-level maps
`thread_lessons`, `thread_history` and `thread_content`. -/
structure ThreadState where
  course : String
  lesson : String
  history : List (String × String)
  content : String
deriving DecidableEq

/-- Thread setup in `summary_command` (lines 332-341): record the pinned
lesson, initialize the history to empty, store the lesson content, then
append the generated summary as an Assistant turn. -/
def create_thread (course lesson lesson_content summary : String) : ThreadState :=
  { course := course
    lesson := lesson
    history := [("Assistant", summary)]
    content := lesson_content }

/-- `discord_bot.get_thread_context` (lines 161-174) for an existing
thread: the last `max_history = 5` entries rendered as `"role: content\n"`
lines after a fixed header. -/
def get_thread_context (st : ThreadState) : String :=
  let recent := st.history.drop (st.history.length - 5)
  "Previous conversation:\n"
    ++ String.join (recent.map fun rc => rc.1 ++ ": " ++ rc.2 ++ "\n")

/-- One thread-mode turn of `discord_bot.on_message` (lines 434-481) for a
thread with a pinned lesson: append the user turn, build the composite
context (history window, full pinned content when non-empty, retrieval
output when it does not signal "nothing found"), answer either with the
context itself (when it contains the sentinel marker) or with the
generated reply, and append the Assistant turn.  The embedding+search
pipeline and the LLM are the external collaborators `search` and `gen`. -/
def thread_turn (gen : String → String → String)
    (search : String → List SearchResult) (st : ThreadState) (q : String) :
    ThreadState :=
  let context_query := "Regarding " ++ st.lesson ++ " from " ++ st.course ++ ": " ++ q
  let st1 : ThreadState := { st with history := st.history ++ [("User", q)] }
  let conversation_context := get_thread_context st1
  let full_lesson_content := st1.content
  let related_context := format_context (search context_query)
  let context0 := conversation_context ++ "\n\n"
  let context1 :=
    if full_lesson_content ≠ "" then
      context0 ++ "Full lesson content:\n" ++ full_lesson_content ++ "\n\n"
    else context0
  let context :=
    if related_context ≠ "" ∧ strContains related_context "No relevant information" = false then
      context1 ++ "Related content from other lessons:\n" ++ related_context
    else context1
  let response :=
    if strContains context "No relevant information" then context
    else gen context_query context
  { st1 with history := st1.history ++ [("Assistant", response)] }

/-! ## Chunker — modelled from the spec (§4.1)

`embed_pipeline.chunk_transcript` delegates the actual splitting to
langchain's `RecursiveCharacterTextSplitter`, whose implementation is not
part of this repository, so the chunking algorithm is modelled from the
spec: the input token sequence is cut at preferred separator boundaries
into consecutive pieces whose concatenation is the input (the separator
cascade only chooses *where* the cuts fall, abstracted here as an
arbitrary piece list), and "each chunk after the first repeats the
trailing `overlap_tokens` worth of the previous chunk's tokens". -/

/-- The trailing `n` elements of a list (all of it when shorter). -/
def lastTokens (n : Nat) (l : List α) : List α := l.drop (l.length - n)

/-- Modelled from the spec: prefix every further piece with the trailing
`ov` tokens of the previous *chunk* (which already carries its own
overlap), as §4.1 prescribes. -/
def addOverlapChunks (ov : Nat) (prev : List α) : List (List α) → List (List α)
  | [] => []
  | p :: ps => (lastTokens ov prev ++ p) :: addOverlapChunks ov (lastTokens ov prev ++ p) ps

/-- Modelled from the spec: the Chunker's output for the piece list a
separator-respecting cut produced — the first piece unchanged, every
later piece preceded by the previous chunk's trailing `ov` tokens. -/
def chunksWithOverlap (ov : Nat) : List (List α) → List (List α)
  | [] => []
  | p :: ps => p :: addOverlapChunks ov p ps

/-- Removing each chunk's leading overlap portion (the part repeated from
the previous chunk): the first chunk is kept whole, every later chunk
drops the `min ov |previous chunk|` leading tokens it repeats. -/
def stripOverlap (ov : Nat) (prev : List α) : List (List α) → List (List α)
  | [] => []
  | c :: cs => c.drop (min ov prev.length) :: stripOverlap ov c cs

/-- Concatenation of the chunks after removing each chunk's leading
overlap portion. -/
def reconstructChunks (ov : Nat) : List (List α) → List α
  | [] => []
  | c :: cs => c ++ (stripOverlap ov c cs).flatten

/-! ## Outbound message splitting — `discord_bot.split_message`

Modelled over `List Char` (one element per Python character) so the
counterexample evaluates inside the kernel. -/

/-- Python `content.split('\n')`: split on every newline, never collapsing
(the split of the empty string is `[""]`). -/
def splitNl : List Char → List (List Char)
  | [] => [[]]
  | c :: cs =>
    if c = '\n' then [] :: splitNl cs
    else
      match splitNl cs with
      | [] => [[c]]
      | x :: xs => (c :: x) :: xs

/-- The body of the paragraph loop of `split_message`: state is
(emitted chunks, current chunk). -/
def splitStep (max_length : Nat) (acc : List (List Char) × List Char)
    (par : List Char) : List (List Char) × List Char :=
  if max_length < acc.2.length + par.length + 1 then
    (if acc.2 ≠ [] then acc.1 ++ [acc.2] else acc.1, par)
  else
    (acc.1, if acc.2 ≠ [] then acc.2 ++ '\n' :: par else acc.2 ++ par)

/-- `discord_bot.split_message` (lines 176-202): short content is returned
whole; longer content is split at newlines and paragraphs are greedily
packed into chunks, a non-empty trailing chunk being flushed at the end. -/
def split_message (content : List Char) (max_length : Nat := 1900) :
    List (List Char) :=
  if content.length ≤ max_length then [content]
  else
    let r := (splitNl content).foldl (splitStep max_length) ([], [])
    if r.2 ≠ [] then r.1 ++ [r.2] else r.1

/-- A 1901-character single-paragraph message. -/
def longMessage : List Char := List.replicate 1901 'a'

/-- The two-chunk collection of the lesson ("SEO", "Intro"), used to
exercise `summary_command`'s content selection. -/
def twoChunkColl : List ChunkRecord :=
  [ { id := "p1_0", embedding := [1], page_id := "p1", title := "Intro",
      course := "SEO", chunk_index := 0, document := "Chunk A." },
    { id := "p1_1", embedding := [2], page_id := "p1", title := "Intro",
      course := "SEO", chunk_index := 1, document := "Chunk B." } ]

/-- A source page not yet indexed, used to exercise the ingestion theorems. -/
def pageFresh : NotionPage :=
  { page_id := "p1", title := "Intro", course := "SEO",
    content := "hello world", indexed := false }

/-- A source page already flagged indexed. -/
def pageDone : NotionPage :=
  { page_id := "p0", title := "Old", course := "SEO",
    content := "old", indexed := true }

/-! # Theorems -/

theorem strData_append (s t : String) : (s ++ t).data = s.data ++ t.data := by
  cases s; cases t; rfl

theorem startsWithCh_append (p x : List Char) : startsWithCh p (p ++ x) = true := by
  induction p with
  | nil => rfl
  | cons a as ih => simp [startsWithCh, ih]

theorem strStartsWith_append (p x : String) : strStartsWith p (p ++ x) = true := by
  rw [strStartsWith, strData_append]; exact startsWithCh_append _ _

/-- Claim C1 counterexample: a single search result whose document text is
the sentinel itself makes `format_context` return (hence contain) the
sentinel although the result list is non-empty, so the claim's "never
contains that sentinel substring when the result list has at least one
element" fails on the code. -/
theorem format_context_sentinel_cex :
    ([({ document := some noInfoSentinel } : SearchResult)] : List SearchResult).length = 1 ∧
    strContains (format_context [{ document := some noInfoSentinel }]) noInfoSentinel = true := by
  constructor
  · rfl
  · decide

/-- Claim C1 (amended): `format_context` returns exactly the sentinel when
the result list is empty, and also when the list is a single result whose
document contains "No relevant information"; for every other non-empty
result list the output starts with the fixed instruction preamble and is
not equal to the sentinel (though it can still contain the sentinel as a
substring when a retrieved document carries it verbatim). -/
theorem format_context_spec (rs : List SearchResult) :
    (rs = [] → format_context rs = noInfoSentinel) ∧
    (singletonNoInfo rs = true → format_context rs = noInfoSentinel) ∧
    (rs ≠ [] → singletonNoInfo rs = false →
      strStartsWith contextPreamble (format_context rs) = true ∧
      format_context rs ≠ noInfoSentinel) := by
  refine ⟨?_, ?_, ?_⟩
  · intro h; subst h; rfl
  · intro h; simp [format_context, h]
  · intro hne hs
    have hemp : rs.isEmpty = false := by
      cases rs with
      | nil => exact absurd rfl hne
      | cons a l => rfl
    have hfc : format_context rs =
        contextPreamble ++ String.join (rs.enum.map fun p => renderResult p.1 p.2) := by
      simp [format_context, hemp, hs]
    refine ⟨by rw [hfc]; exact strStartsWith_append _ _, ?_⟩
    rw [hfc]; intro h
    have hpre : strStartsWith contextPreamble noInfoSentinel = true := by
      rw [← h]; exact strStartsWith_append _ _
    exact absurd hpre (by decide)

/-- Witness for the amended C1 at concrete inputs: the empty result list
and a one-result list with an ordinary document. -/
theorem format_context_spec_witness :
    format_context [] = noInfoSentinel ∧
    (strStartsWith contextPreamble (format_context [{ document := some "doc" }]) = true ∧
      format_context [{ document := some "doc" }] ≠ noInfoSentinel) :=
  ⟨(format_context_spec []).1 rfl,
   (format_context_spec [{ document := some "doc" }]).2.2 (by decide) (by decide)⟩

/-- Claim C2, the code evaluated at the failing input: for the pinned
lesson ("SEO", "Intro") stored as two chunks, `summary_command` stores
only the first returned document "Chunk A." as the thread's
`full_content`, while the complete text of the pinned lesson — the text
of every stored chunk matching the (title, course) pair — consists of
both chunk texts. -/
theorem summary_content_first_chunk_only :
    summary_lesson_content twoChunkColl "SEO" "Intro" = some "Chunk A." ∧
    full_content_spec twoChunkColl "SEO" "Intro" = ["Chunk A.", "Chunk B."] := by
  constructor <;> rfl

/-- Claim C3 counterexample: with a pinned lesson ("SEO", "Intro") and one
user turn "What is X?", the history holds three entries, not two, and its
first entry is the creation-time Assistant summary, not the user turn. -/
theorem thread_history_two_entries_cex :
    ((thread_turn (fun _ _ => "REPLY") (fun _ => [])
        (create_thread "SEO" "Intro" "C" "S") "What is X?").history).length = 3 ∧
    ((thread_turn (fun _ _ => "REPLY") (fun _ => [])
        (create_thread "SEO" "Intro" "C" "S") "What is X?").history).head?
      = some ("Assistant", "S") := by
  constructor
  · rfl
  · rfl

/-- Claim C3 (amended): for every thread created with a pinned lesson,
after exactly one user turn with message text q the thread's history
contains exactly three entries in order — the creation-time
("Assistant", summary), then ("User", q), then ("Assistant", reply) for
the reply produced for that turn. -/
theorem thread_history_after_one_turn (gen : String → String → String)
    (search : String → List SearchResult) (course lesson content summary q : String) :
    ∃ r, (thread_turn gen search (create_thread course lesson content summary) q).history
      = [("Assistant", summary), ("User", q), ("Assistant", r)] :=
  ⟨_, rfl⟩

/-- Claim C4: whenever the embedding backend embeds each batch pointwise
(one vector `f text` per input text), `process_in_batches` either returns
the pointwise embeddings of the whole input — output length equals input
length and `output[i]` is the embedding of `input[i]` — or propagates an
error with no partial result, a failing batch aborting the whole call;
this covers the empty and single-element inputs. -/
theorem process_in_batches_ok_or_error (f : String → List Int)
    (embed : List String → Except String (List (List Int)))
    (hembed : ∀ ts vs, embed ts = Except.ok vs → vs = ts.map f)
    (texts : List String) :
    process_in_batches embed texts = Except.ok (texts.map f) ∨
      ∃ e, process_in_batches embed texts = Except.error e := by
  suffices h : ∀ n (texts : List String), texts.length = n →
      process_in_batches embed texts = Except.ok (texts.map f) ∨
        ∃ e, process_in_batches embed texts = Except.error e by
    exact h texts.length texts rfl
  intro n
  induction n using Nat.strong_induction_on with
  | _ n ih =>
    intro texts hn
    cases texts with
    | nil => left; rw [process_in_batches]; rfl
    | cons t ts =>
      subst hn
      have hrec := ih ((t :: ts).drop BATCH_SIZE).length
        (by simp [BATCH_SIZE]; omega) ((t :: ts).drop BATCH_SIZE) rfl
      rw [process_in_batches]
      cases hE : embed ((t :: ts).take BATCH_SIZE) with
      | error e => right; exact ⟨e, rfl⟩
      | ok vs =>
        have hvs : vs = ((t :: ts).take BATCH_SIZE).map f := hembed _ _ hE
        rcases hrec with hok | ⟨e, herr⟩
        · left
          dsimp only
          rw [hok]
          dsimp only
          rw [hvs, ← List.map_append, List.take_append_drop]
        · right
          exact ⟨e, by dsimp only; rw [herr]⟩

/-- Witness for C4 at a concrete input: a pointwise backend embedding each
text as the one-element vector of its length, applied to a two-text input. -/
theorem process_in_batches_witness :
    process_in_batches (pointwiseBackend fun s => [(s.length : Int)]) ["a", "bb"]
      = Except.ok (["a", "bb"].map fun s => [(s.length : Int)]) ∨
    ∃ e, process_in_batches (pointwiseBackend fun s => [(s.length : Int)]) ["a", "bb"]
      = Except.error e :=
  process_in_batches_ok_or_error (fun s => [(s.length : Int)]) _
    (fun ts vs h => by
      simpa [pointwiseBackend] using h.symm) ["a", "bb"]

theorem upsertAll_cons (s : Store) (r : ChunkRecord) (rs : List ChunkRecord) :
    upsertAll s (r :: rs) = upsertAll (upsert1 s r) rs := rfl

theorem upsertAll_lookup (rs : List ChunkRecord) :
    ∀ (s : Store) (k : String), upsertAll s rs k =
      match lastMatch k rs with
      | some r => some r
      | none => s k := by
  induction rs with
  | nil => intro s k; rfl
  | cons r t ih =>
    intro s k
    rw [upsertAll_cons, ih]
    cases h : lastMatch k t with
    | some r' => simp [lastMatch, h]
    | none =>
      by_cases hk : k = r.id
      · subst hk; simp [lastMatch, h, upsert1]
      · simp [lastMatch, h, upsert1, hk]

theorem upsertAll_idem (s : Store) (rs : List ChunkRecord) (k : String) :
    upsertAll (upsertAll s rs) rs k = upsertAll s rs k := by
  rw [upsertAll_lookup rs (upsertAll s rs) k]
  cases h : lastMatch k rs with
  | some r => rw [upsertAll_lookup rs s k, h]
  | none => rfl

theorem extract_mem (pages : List NotionPage) (t : Transcript) :
    t ∈ extract_all_transcripts pages →
      ∃ p, p ∈ pages ∧ p.indexed = false ∧ t = pageTranscript p := by
  induction pages with
  | nil => intro h; simp [extract_all_transcripts] at h
  | cons p ps ih =>
    intro h
    cases hp : p.indexed with
    | true =>
      simp only [extract_all_transcripts, hp, if_true] at h
      obtain ⟨q, hq, hqi, hqt⟩ := ih h
      exact ⟨q, List.mem_cons_of_mem _ hq, hqi, hqt⟩
    | false =>
      simp only [extract_all_transcripts, hp, if_false] at h
      rcases List.mem_cons.mp h with h1 | h2
      · exact ⟨p, List.mem_cons_self _ _, hp, h1⟩
      · obtain ⟨q, hq, hqi, hqt⟩ := ih h2
        exact ⟨q, List.mem_cons_of_mem _ hq, hqi, hqt⟩

theorem page_records_ids (chunkf : String → List String) (embedf : String → List Int)
    (p : Transcript) :
    (page_records chunkf embedf p).map (fun r => r.id)
      = (List.range (chunkf p.content).length).map
          (fun i => p.page_id ++ "_" ++ toString i) := by
  simp only [page_records, mkRecords, List.map_map]
  have hz : (chunkf p.content).length
      = ((chunkf p.content).zip ((chunkf p.content).map embedf)).length := by
    simp [List.length_zip]
  rw [hz, ← List.enum_map_fst, List.map_map]
  rfl

/-- Claim C5: ingestion is idempotent — a page already flagged indexed is
never returned by `extract_all_transcripts` (every returned transcript
comes from a page with `indexed = false`); the records computed for a page
carry the deterministic ids `<page_id>_<ordinal>` for the ordinals
`0, 1, ...` of its chunks (so with the same chunker and embedding backend a
second run computes identical records); and upserting a page's record
batch a second time leaves the store pointwise unchanged — the second run
overwrites rather than duplicates. -/
theorem ingestion_idempotence :
    (∀ (pages : List NotionPage) (t : Transcript),
        t ∈ extract_all_transcripts pages →
          ∃ p, p ∈ pages ∧ p.indexed = false ∧ t = pageTranscript p) ∧
    (∀ (chunkf : String → List String) (embedf : String → List Int) (p : Transcript),
        (page_records chunkf embedf p).map (fun r => r.id)
          = (List.range (chunkf p.content).length).map
              (fun i => p.page_id ++ "_" ++ toString i)) ∧
    (∀ (s : Store) (chunkf : String → List String) (embedf : String → List Int)
        (p : Transcript) (k : String),
        upsertAll (upsertAll s (page_records chunkf embedf p))
            (page_records chunkf embedf p) k
          = upsertAll s (page_records chunkf embedf p) k) :=
  ⟨extract_mem, page_records_ids, fun s _ _ _ k => upsertAll_idem s _ k⟩

/-- Witness for C5 at concrete inputs: a two-page source where one page is
already indexed, a one-chunk chunker and a length embedding backend. -/
theorem ingestion_idempotence_witness :
    (∃ p, p ∈ [pageDone, pageFresh] ∧ p.indexed = false ∧
        pageTranscript pageFresh = pageTranscript p) ∧
    upsertAll (upsertAll (fun _ => none)
          (page_records (fun c => [c]) (fun s => [(s.length : Int)])
            (pageTranscript pageFresh)))
        (page_records (fun c => [c]) (fun s => [(s.length : Int)])
          (pageTranscript pageFresh)) "p1_0"
      = upsertAll (fun _ => none)
          (page_records (fun c => [c]) (fun s => [(s.length : Int)])
            (pageTranscript pageFresh)) "p1_0" :=
  ⟨ingestion_idempotence.1 [pageDone, pageFresh] (pageTranscript pageFresh) (by decide),
   ingestion_idempotence.2.2 (fun _ => none) (fun c => [c])
     (fun s => [(s.length : Int)]) (pageTranscript pageFresh) "p1_0"⟩

/-- Claim C6: during `embed_and_store`, a chunking, embedding or upsert
failure on one page leaves the ingestion state untouched for that page and
every subsequent page is still processed; a failure of the mark-indexed
write-back is absorbed after the upsert, so the page's upserted records
are kept (only the page is not recorded as marked) and later pages are
still processed. -/
theorem ingestion_per_page_isolation (ops : IngestOps) (st : IngestState)
    (p : Transcript) (rest : List Transcript) :
    (∀ e, ops.chunkE p.content = Except.error e →
        embed_and_store ops st (p :: rest) = embed_and_store ops st rest) ∧
    (∀ chunks e, ops.chunkE p.content = Except.ok chunks →
        ops.embedE chunks = Except.error e →
        embed_and_store ops st (p :: rest) = embed_and_store ops st rest) ∧
    (∀ chunks vectors e, ops.chunkE p.content = Except.ok chunks →
        ops.embedE chunks = Except.ok vectors →
        ops.upsertE st.1 (mkRecords p chunks vectors) = Except.error e →
        embed_and_store ops st (p :: rest) = embed_and_store ops st rest) ∧
    (∀ chunks vectors s' e, ops.chunkE p.content = Except.ok chunks →
        ops.embedE chunks = Except.ok vectors →
        ops.upsertE st.1 (mkRecords p chunks vectors) = Except.ok s' →
        ops.markE p.page_id = Except.error e →
        embed_and_store ops st (p :: rest) = embed_and_store ops (s', st.2) rest) := by
  refine ⟨?_, ?_, ?_, ?_⟩
  · intro e h1
    simp only [embed_and_store, List.foldl_cons, processPage, h1]
  · intro chunks e h1 h2
    simp only [embed_and_store, List.foldl_cons, processPage, h1, h2]
  · intro chunks vectors e h1 h2 h3
    simp only [embed_and_store, List.foldl_cons, processPage, h1, h2, h3]
  · intro chunks vectors s' e h1 h2 h3 h4
    simp only [embed_and_store, List.foldl_cons, processPage, h1, h2, h3, h4]

/-- Witness for C6 at a concrete input: an operation set whose chunker
always fails, applied to a one-page batch. -/
theorem ingestion_per_page_isolation_witness :
    embed_and_store opsChunkFail ((fun _ => none), []) [pageTranscript pageFresh]
      = embed_and_store opsChunkFail ((fun _ => none), []) [] :=
  (ingestion_per_page_isolation opsChunkFail ((fun _ => none), [])
    (pageTranscript pageFresh) []).1 "boom" rfl

theorem is_rate_limited_eq (now : Nat) (reqs : List Nat) :
    is_rate_limited now reqs =
      if RATE_LIMIT_MAX ≤ (pruneW now reqs).length then (true, pruneW now reqs)
      else (false, pruneW now reqs ++ [now]) := rfl

theorem pruneW_all (now : Nat) (l : List Nat)
    (h : ∀ t ∈ l, now - t < RATE_LIMIT_WINDOW) : pruneW now l = l :=
  List.filter_eq_self.mpr fun a ha => by simpa using h a ha

theorem pruneW_none (now : Nat) (l : List Nat)
    (h : ∀ t ∈ l, ¬ (now - t < RATE_LIMIT_WINDOW)) : pruneW now l = [] :=
  List.filter_eq_nil_iff.mpr fun a ha => by simpa using h a ha

theorem prune_prune (now now' : Nat) (reqs : List Nat) (h : now ≤ now') :
    pruneW now' (pruneW now reqs) = pruneW now' reqs := by
  rw [pruneW, pruneW, pruneW, List.filter_filter]
  apply List.filter_congr
  intro a _
  by_cases ha : now' - a < RATE_LIMIT_WINDOW
  · have hb : now - a < RATE_LIMIT_WINDOW := by
      simp only [RATE_LIMIT_WINDOW] at ha ⊢; omega
    simp [ha, hb]
  · simp [ha]

/-- Claim C7: with the default window of 60 seconds and maximum of 5
requests, six calls for the same caller within one window yield exactly
one rejection, precisely the sixth call, and a seventh call made once the
window has elapsed since the admitted calls is admitted again. -/
theorem rate_limiter_six_then_seven (t1 t2 t3 t4 t5 t6 t7 : Nat)
    (h12 : t1 ≤ t2) (h23 : t2 ≤ t3) (h34 : t3 ≤ t4) (h45 : t4 ≤ t5) (h56 : t5 ≤ t6)
    (hwin : t6 < t1 + RATE_LIMIT_WINDOW) (h7 : t5 + RATE_LIMIT_WINDOW ≤ t7) :
    run_calls [] [t1, t2, t3, t4, t5, t6, t7]
      = [false, false, false, false, false, true, false] := by
  rw [show RATE_LIMIT_WINDOW = 60 from rfl] at hwin h7
  have c1 : is_rate_limited t1 [] = (false, [t1]) := by
    rw [is_rate_limited_eq]; rfl
  have p2 : pruneW t2 [t1] = [t1] := pruneW_all _ _ (by
    intro t ht; simp at ht; subst ht; simp only [RATE_LIMIT_WINDOW]; omega)
  have c2 : is_rate_limited t2 [t1] = (false, [t1, t2]) := by
    rw [is_rate_limited_eq, p2]; simp [RATE_LIMIT_MAX]
  have p3 : pruneW t3 [t1, t2] = [t1, t2] := pruneW_all _ _ (by
    intro t ht; simp at ht
    rcases ht with h | h <;> subst h <;> simp only [RATE_LIMIT_WINDOW] <;> omega)
  have c3 : is_rate_limited t3 [t1, t2] = (false, [t1, t2, t3]) := by
    rw [is_rate_limited_eq, p3]; simp [RATE_LIMIT_MAX]
  have p4 : pruneW t4 [t1, t2, t3] = [t1, t2, t3] := pruneW_all _ _ (by
    intro t ht; simp at ht
    rcases ht with h | h | h <;> subst h <;> simp only [RATE_LIMIT_WINDOW] <;> omega)
  have c4 : is_rate_limited t4 [t1, t2, t3] = (false, [t1, t2, t3, t4]) := by
    rw [is_rate_limited_eq, p4]; simp [RATE_LIMIT_MAX]
  have p5 : pruneW t5 [t1, t2, t3, t4] = [t1, t2, t3, t4] := pruneW_all _ _ (by
    intro t ht; simp at ht
    rcases ht with h | h | h | h <;> subst h <;> simp only [RATE_LIMIT_WINDOW] <;> omega)
  have c5 : is_rate_limited t5 [t1, t2, t3, t4] = (false, [t1, t2, t3, t4, t5]) := by
    rw [is_rate_limited_eq, p5]; simp [RATE_LIMIT_MAX]
  have p6 : pruneW t6 [t1, t2, t3, t4, t5] = [t1, t2, t3, t4, t5] := pruneW_all _ _ (by
    intro t ht; simp at ht
    rcases ht with h | h | h | h | h <;> subst h <;> simp only [RATE_LIMIT_WINDOW] <;> omega)
  have c6 : is_rate_limited t6 [t1, t2, t3, t4, t5] = (true, [t1, t2, t3, t4, t5]) := by
    rw [is_rate_limited_eq, p6]; simp [RATE_LIMIT_MAX]
  have p7 : pruneW t7 [t1, t2, t3, t4, t5] = [] := pruneW_none _ _ (by
    intro t ht; simp at ht
    rcases ht with h | h | h | h | h <;> subst h <;> simp only [RATE_LIMIT_WINDOW] <;> omega)
  have c7 : is_rate_limited t7 [t1, t2, t3, t4, t5] = (false, [t7]) := by
    rw [is_rate_limited_eq, p7]; simp [RATE_LIMIT_MAX]
  simp [run_calls, c1, c2, c3, c4, c5, c6, c7]

/-- Witness for C7 at concrete times: five calls at 0, a sixth at 59
(rejected), a seventh at 60 (admitted again). -/
theorem rate_limiter_six_then_seven_witness :
    run_calls [] [0, 0, 0, 0, 0, 59, 60]
      = [false, false, false, false, false, true, false] :=
  rate_limiter_six_then_seven 0 0 0 0 0 59 60 (by decide) (by decide) (by decide)
    (by decide) (by decide) (by decide) (by decide)

/-- Claim C10 counterexample: a rejected call can still mutate the
caller's ledger — at time 65 with stored times [0, 10, 20, 30, 40, 50]
the call is rejected yet the stored list changes (the expired timestamp 0
is pruned), so "mutates the ledger only when the request is admitted"
fails on the code. -/
theorem rate_limited_reject_mutates_cex :
    (is_rate_limited 65 [0, 10, 20, 30, 40, 50]).1 = true ∧
    (is_rate_limited 65 [0, 10, 20, 30, 40, 50]).2 ≠ [0, 10, 20, 30, 40, 50] := by
  refine ⟨by decide, by decide⟩

/-- Claim C10 (amended): a call appends to the caller's ledger only when
it is admitted — a rejected call leaves exactly the pruned ledger, every
element of which was already stored; after any call every stored
timestamp is within the current window of `now`; and a rejected attempt
never extends the rate-limited period: any later call sees the same
decision and ledger as if the rejected attempt had never happened. -/
theorem rate_limited_ledger_spec (now now' : Nat) (reqs : List Nat) :
    ((is_rate_limited now reqs).1 = true →
      (is_rate_limited now reqs).2 = pruneW now reqs ∧
      ∀ t ∈ (is_rate_limited now reqs).2, t ∈ reqs) ∧
    (∀ t ∈ (is_rate_limited now reqs).2, now - t < RATE_LIMIT_WINDOW) ∧
    ((is_rate_limited now reqs).1 = true → now ≤ now' →
      is_rate_limited now' (is_rate_limited now reqs).2 = is_rate_limited now' reqs) := by
  by_cases h : RATE_LIMIT_MAX ≤ (pruneW now reqs).length
  · have he : is_rate_limited now reqs = (true, pruneW now reqs) := by
      rw [is_rate_limited_eq, if_pos h]
    refine ⟨fun _ => ⟨by rw [he], ?_⟩, ?_, fun _ hmono => ?_⟩
    · intro t ht; rw [he] at ht
      exact List.mem_of_mem_filter ht
    · intro t ht; rw [he] at ht
      simpa using (List.mem_filter.mp ht).2
    · rw [he]
      show is_rate_limited now' (pruneW now reqs) = is_rate_limited now' reqs
      rw [is_rate_limited_eq, is_rate_limited_eq,
        show pruneW now' (pruneW now reqs) = pruneW now' reqs from
          prune_prune now now' reqs hmono]
  · have he : is_rate_limited now reqs = (false, pruneW now reqs ++ [now]) := by
      rw [is_rate_limited_eq, if_neg h]
    refine ⟨fun hc => ?_, ?_, fun hc _ => ?_⟩
    · rw [he] at hc; simp at hc
    · intro t ht; rw [he] at ht
      rcases List.mem_append.mp ht with h1 | h1
      · simpa using (List.mem_filter.mp h1).2
      · simp at h1; subst h1
        simp [RATE_LIMIT_WINDOW]
    · rw [he] at hc; simp at hc

/-- Witness for the amended C10 at a concrete input: the rejected call at
time 65 over ledger [0, 10, 20, 30, 40, 50], followed by a call at 70. -/
theorem rate_limited_ledger_spec_witness :
    ((is_rate_limited 65 [0, 10, 20, 30, 40, 50]).2
        = pruneW 65 [0, 10, 20, 30, 40, 50] ∧
      ∀ t ∈ (is_rate_limited 65 [0, 10, 20, 30, 40, 50]).2,
        t ∈ [0, 10, 20, 30, 40, 50]) ∧
    is_rate_limited 70 (is_rate_limited 65 [0, 10, 20, 30, 40, 50]).2
      = is_rate_limited 70 [0, 10, 20, 30, 40, 50] :=
  ⟨(rate_limited_ledger_spec 65 70 [0, 10, 20, 30, 40, 50]).1 (by decide),
   (rate_limited_ledger_spec 65 70 [0, 10, 20, 30, 40, 50]).2.2 (by decide) (by decide)⟩

theorem lastTokens_length (n : Nat) (l : List α) :
    (lastTokens n l).length = min n l.length := by
  simp only [lastTokens, List.length_drop]
  omega

theorem stripOverlap_addOverlap (ov : Nat) (ps : List (List α)) :
    ∀ prev, stripOverlap ov prev (addOverlapChunks ov prev ps) = ps := by
  induction ps with
  | nil => intro prev; rfl
  | cons p t ih =>
    intro prev
    rw [addOverlapChunks, stripOverlap]
    congr 1
    · rw [← lastTokens_length ov prev, List.drop_left]
    · exact ih _

/-- Claim C8 (spec-modelled Chunker): for any input and any
separator-respecting cut of it into pieces, concatenating all returned
chunks after removing each chunk's leading overlap portion (the part
repeated from the previous chunk) reconstructs the original input
losslessly — no tokens (hence no characters) are dropped. -/
theorem chunker_lossless {α : Type} (ov : Nat) (text : List α)
    (pieces : List (List α)) (h : pieces.flatten = text) :
    reconstructChunks ov (chunksWithOverlap ov pieces) = text := by
  cases pieces with
  | nil => rw [← h]; rfl
  | cons p ps =>
    rw [← h, chunksWithOverlap, reconstructChunks, stripOverlap_addOverlap ov ps p,
      List.flatten_cons]

/-- Witness for C8 at a concrete input: the token sequence 1..5 cut into
two pieces and chunked with overlap 2. -/
theorem chunker_lossless_witness :
    reconstructChunks 2 (chunksWithOverlap 2 [[1, 2, 3], [4, 5]])
      = ([1, 2, 3, 4, 5] : List Nat) :=
  chunker_lossless 2 [1, 2, 3, 4, 5] [[1, 2, 3], [4, 5]] (by decide)

theorem splitNl_no_newline (l : List Char) (h : ∀ c ∈ l, c ≠ '\n') :
    splitNl l = [l] := by
  induction l with
  | nil => rfl
  | cons c cs ih =>
    rw [splitNl, if_neg (h c (List.mem_cons_self c cs)),
      ih fun x hx => h x (List.mem_cons_of_mem _ hx)]

/-- Claim C9, the code evaluated at the failing input: a 1901-character
message containing no newline exceeds the default 1900-character limit,
yet `split_message` returns it unsplit as a single chunk of 1901
characters, violating "every chunk's length is at most the message-length
limit" (and the function's own docstring). -/
theorem split_message_long_paragraph :
    split_message longMessage = [longMessage] ∧ 1900 < longMessage.length := by
  have hlen : longMessage.length = 1901 := by
    rw [longMessage, List.length_replicate]
  have hnl : splitNl longMessage = [longMessage] :=
    splitNl_no_newline _ (by
      intro c hc
      rw [longMessage] at hc
      rw [List.eq_of_mem_replicate hc]
      decide)
  have hne : longMessage ≠ [] := by
    intro hh; rw [hh] at hlen; simp at hlen
  refine ⟨?_, by rw [hlen]; omega⟩
  have h1 : ¬ (longMessage.length ≤ 1900) := by rw [hlen]; omega
  rw [split_message, if_neg h1, hnl]
  rw [List.foldl_cons, List.foldl_nil]
  have hstep : splitStep 1900 ([], []) longMessage = ([], longMessage) := by
    rw [splitStep, if_pos (by simp [hlen])]
    simp
  rw [hstep]
  show (if longMessage ≠ [] then [] ++ [longMessage] else []) = [longMessage]
  rw [if_pos hne]
  rfl

end Converto
